import Mathlib

/-!
# Connected-component labeling driver (`bwlabel_cuda.hpp`)

A shallow embedding of the host-side driver `bwlabel_cuda` and of its helper
`divup`.  Machine integers (`uint32_T`) are natural numbers reduced modulo
`2 ^ 32` at every arithmetic operation; a division by zero is an error.
The device kernels are loaded from a PTX image and are not part of the
wrapper, so the driver is parametric in a `Device` giving their meaning.
-/

namespace BwlabelCuda

/-! ## Machine arithmetic -/

/-- Number of values of a `uint32_T`. -/
@[reducible] def UINT32_SIZE : Nat := 4294967296

/-- Addition of two `uint32_T` values. -/
def add32 (a b : Nat) : Nat := (a + b) % UINT32_SIZE

/-- Subtraction of two `uint32_T` values (wraps below zero). -/
def sub32 (a b : Nat) : Nat := (a % UINT32_SIZE + (UINT32_SIZE - b % UINT32_SIZE)) % UINT32_SIZE

/-- Multiplication of two `uint32_T` values. -/
def mul32 (a b : Nat) : Nat := (a * b) % UINT32_SIZE

/-- Launch dimensions, the CUDA `dim3`; components left out default to `1`. -/
structure Dim3 where
  x : Nat
  y : Nat := 1
  z : Nat := 1
  deriving DecidableEq, Repr

/-- `static const dim3 threads1(256, 1, 1);` -/
def threads1 : Dim3 := { x := 256, y := 1, z := 1 }

/-- `static const dim3 threads2(32, 8);` -/
def threads2 : Dim3 := { x := 32, y := 8 }

/-- Divide and round up: `return (n + threads - 1) / threads;` at `T = uint32_T`.
A zero divisor is an integer division by zero, reported as `none`. -/
def divup (n threads : Nat) : Option Nat :=
  if threads = 0 then none
  else some (sub32 (add32 n threads) 1 / threads)

/-! ## Launch patterns (lines 67-73) -/

/-- The values computed under `// calculate launch patterns`. -/
structure LaunchPatterns where
  numel : Nat
  work : Nat
  num_blocks : Nat
  blocks_y : Nat
  blocks1 : Dim3
  blocks2 : Dim3
  deriving DecidableEq, Repr

/-- The launch-pattern computation of `bwlabel_cuda`, statement by statement. -/
def launchPatterns (nx ny : Nat) : Option LaunchPatterns := do
  let numel := mul32 nx ny
  let work := 16
  let num_blocks ← divup numel (mul32 work threads1.x)
  let blocks_y ← divup num_blocks (256 * 256 - 1)
  let blocks1_x ← divup num_blocks blocks_y
  let blocks1 : Dim3 := { x := blocks1_x, y := blocks_y }
  let blocks2_x ← divup nx threads2.x
  let blocks2_y ← divup ny threads2.y
  let blocks2 : Dim3 := { x := blocks2_x, y := blocks2_y }
  pure { numel := numel, work := work, num_blocks := num_blocks, blocks_y := blocks_y,
         blocks1 := blocks1, blocks2 := blocks2 }

/-! ## Device interface -/

/-- The kernels of the PTX module, in the order of the `enum` of `bwlabel_cuda`. -/
inductive Kernel
  | InitializeKernel
  | ScanningTrueKernel
  | ScanningFalseKernel
  | AnalysisKernel
  | PartialSumTrueKernel
  | PartialSumFalseKernel
  | FullSumKernel
  | FinalizeKernel
  deriving DecidableEq, Repr

/-- The device buffers handed to `bwlabel_cuda`. -/
inductive Buffer
  | d_labels_final
  | d_num
  | d_labels
  | d_packing
  | d_bw
  deriving DecidableEq, Repr

/-- One entry of a kernel argument array. -/
inductive Arg
  | ptr (b : Buffer)
  | u32 (v : Nat)
  | size (v : Nat)
  | null
  deriving DecidableEq, Repr

/-- One call of `mw_ptx_utils::launchKernelWithCheck`. -/
structure Launch where
  kernel : Kernel
  grid : Dim3
  block : Dim3
  args : List Arg
  deriving DecidableEq, Repr

/-- What the driver asks of the device: launching a kernel, and reading the device
global `d_modified` into `h_modified` (`cuMemcpyDtoH`). -/
structure Device (σ : Type) where
  launchKernelWithCheck : Launch → σ → σ
  cuMemcpyDtoH : σ → Nat

/-- Ways in which the embedded driver fails to return. -/
inductive Err
  | divisionByZero
  | outOfFuel
  deriving DecidableEq, Repr

/-! ## The driver -/

/-- The launch under `// initialize label fields`. -/
def initializeLaunch (p : LaunchPatterns) : Launch :=
  let initialize_args := [Arg.ptr Buffer.d_labels, Arg.ptr Buffer.d_bw, Arg.u32 p.numel]
  { kernel := Kernel.InitializeKernel, grid := p.blocks1, block := threads1,
    args := initialize_args }

/-- The scanning launch of one loop iteration: `if (is8) { ... } else { ... }`. -/
def scanningLaunch (is8 : Bool) (p : LaunchPatterns) (nx ny : Nat) : Launch :=
  let scanning_args := [Arg.ptr Buffer.d_labels, Arg.u32 nx, Arg.u32 ny]
  if is8 then
    { kernel := Kernel.ScanningTrueKernel, grid := p.blocks2, block := threads2,
      args := scanning_args }
  else
    { kernel := Kernel.ScanningFalseKernel, grid := p.blocks2, block := threads2,
      args := scanning_args }

/-- The analysis launch of one loop iteration. -/
def analysisLaunch (p : LaunchPatterns) : Launch :=
  let analysis_args := [Arg.ptr Buffer.d_labels, Arg.u32 p.numel]
  { kernel := Kernel.AnalysisKernel, grid := p.blocks1, block := threads1,
    args := analysis_args }

/-- The launch under `// cumulative sum within each block`; `d_blocksums` is
`d_labels_final` reinterpreted as `uint32_T*`. -/
def partialSumFPLaunch (p : LaunchPatterns) : Launch :=
  let d_blocksums := Buffer.d_labels_final
  let partial_sumFP_args := [Arg.ptr Buffer.d_packing, Arg.ptr Buffer.d_labels,
    Arg.ptr d_blocksums, Arg.u32 p.numel, Arg.u32 p.work]
  { kernel := Kernel.PartialSumTrueKernel, grid := p.blocks1, block := threads1,
    args := partial_sumFP_args }

/-- The launch under `// cumulative sum across all blocks`, given the value of `tmpVal2`. -/
def partialSumSPLaunch (p : LaunchPatterns) (tmpVal2 : Nat) : Launch :=
  let d_blocksums := Buffer.d_labels_final
  let tmpVal := Arg.null
  let tmpVal1 := add32 p.num_blocks 1
  let partial_sumSP_args := [Arg.ptr d_blocksums, Arg.ptr d_blocksums, tmpVal, Arg.size tmpVal1,
    Arg.size tmpVal2]
  { kernel := Kernel.PartialSumFalseKernel, grid := { x := 1, y := 1, z := 1 }, block := threads1,
    args := partial_sumSP_args }

/-- The launch under `// redistribute partial sums across all blocks`. -/
def fullSumLaunch (p : LaunchPatterns) : Launch :=
  let d_blocksums := Buffer.d_labels_final
  let full_sum_args := [Arg.ptr Buffer.d_packing, Arg.ptr d_blocksums, Arg.u32 p.numel,
    Arg.u32 p.work]
  { kernel := Kernel.FullSumKernel, grid := p.blocks1, block := threads1, args := full_sum_args }

/-- The launch under `// finalize labels into double-precision output`. -/
def finalizeLaunch (p : LaunchPatterns) : Launch :=
  let finalize_args := [Arg.ptr Buffer.d_labels_final, Arg.ptr Buffer.d_num,
    Arg.ptr Buffer.d_labels, Arg.ptr Buffer.d_packing, Arg.u32 p.numel]
  { kernel := Kernel.FinalizeKernel, grid := p.blocks1, block := threads1, args := finalize_args }

/-- The loop `do { scanning; copy flag; analysis } while (h_modified);`.
The first argument bounds the number of iterations the embedding follows. -/
def fixpointLoop {σ : Type} (dev : Device σ) (is8 : Bool) (p : LaunchPatterns) (nx ny : Nat) :
    Nat → σ → Except Err σ
  | 0, _ => Except.error Err.outOfFuel
  | fuel + 1, s =>
    let s1 := dev.launchKernelWithCheck (scanningLaunch is8 p nx ny) s
    let h_modified := dev.cuMemcpyDtoH s1
    let s2 := dev.launchKernelWithCheck (analysisLaunch p) s1
    if h_modified ≠ 0 then fixpointLoop dev is8 p nx ny fuel s2 else Except.ok s2

/-- The launches after the loop: inclusive scan (three kernels) and finalisation. -/
def compactAndFinalize {σ : Type} (dev : Device σ) (p : LaunchPatterns) (s : σ) :
    Except Err σ := do
  let s := dev.launchKernelWithCheck (partialSumFPLaunch p) s
  let tmpVal2 ← match divup (add32 p.num_blocks 1) threads1.x with
    | some v => Except.ok v
    | none => Except.error Err.divisionByZero
  let s := dev.launchKernelWithCheck (partialSumSPLaunch p tmpVal2) s
  let s := dev.launchKernelWithCheck (fullSumLaunch p) s
  let s := dev.launchKernelWithCheck (finalizeLaunch p) s
  pure s

/-- The statements of `bwlabel_cuda` that follow `// calculate launch patterns`, given the
outcome of that computation (`none`: it divided by zero). -/
def bwlabelLaunches {σ : Type} (dev : Device σ) (fuel : Nat) (nhood nx ny : Nat) (s : σ) :
    Option LaunchPatterns → Except Err σ
  | none => Except.error Err.divisionByZero
  | some p => do
    let s := dev.launchKernelWithCheck (initializeLaunch p) s
    let is8 := (nhood == 8)
    let s ← fixpointLoop dev is8 p nx ny fuel s
    compactAndFinalize dev p s

/-- The driver `bwlabel_cuda(d_labels_final, d_num, d_labels, d_packing, d_bw, nhood, nx, ny)`
acting on the device state `s` that holds the buffers. -/
def bwlabel_cuda {σ : Type} (dev : Device σ) (fuel : Nat) (nhood nx ny : Nat) (s : σ) :
    Except Err σ :=
  bwlabelLaunches dev fuel nhood nx ny s (launchPatterns nx ny)

/-! ## A recording device -/

/-- State of the recording device: the launches so far (oldest first), the number
of scanning passes so far, and the current value of `d_modified`. -/
structure TraceState where
  launches : List Launch
  scans : Nat
  d_modified : Nat
  deriving DecidableEq, Repr

/-- Whether a kernel is one of the two scanning kernels. -/
def Kernel.isScanning : Kernel → Bool
  | Kernel.ScanningTrueKernel => true
  | Kernel.ScanningFalseKernel => true
  | _ => false

/-- A device that records every launch in order and whose `k`-th scanning pass
(counting from zero) leaves the value `flags k` in `d_modified`. -/
def traceDevice (flags : Nat → Nat) : Device TraceState where
  launchKernelWithCheck l s :=
    if l.kernel.isScanning then
      { launches := s.launches ++ [l], scans := s.scans + 1, d_modified := flags s.scans }
    else
      { s with launches := s.launches ++ [l] }
  cuMemcpyDtoH s := s.d_modified

/-- The launches of `n` loop iterations. -/
def loopLaunches (is8 : Bool) (p : LaunchPatterns) (nx ny : Nat) : Nat → List Launch
  | 0 => []
  | n + 1 => scanningLaunch is8 p nx ny :: analysisLaunch p :: loopLaunches is8 p nx ny n

/-- A one-pixel device for exercising the loop. The state is `(label, d_modified)`: a
scanning pass lowers a positive label by one and then sets the flag (it never clears
it), the analysis pass resets the flag, every other kernel leaves the state alone. -/
def countdownDevice : Device (Nat × Nat) where
  launchKernelWithCheck l s :=
    if l.kernel.isScanning then (if s.1 = 0 then s else (s.1 - 1, 1))
    else if l.kernel = Kernel.AnalysisKernel then (s.1, 0)
    else s
  cuMemcpyDtoH s := s.2

/-! ## A model of the kernels

The kernels live in a PTX image that is not part of the wrapper. They are modelled from
the component descriptions of the specification, each pass acting on all pixels at once. -/

end BwlabelCuda

/-! # Morphological reconstruction driver (`imreconstruct_cuda.hpp`) -/

namespace ImreconstructCuda

/-- Number of values of a `size_t` (64 bits). -/
@[reducible] def SIZE_MAX_PLUS_ONE : Nat := 18446744073709551616

/-- The element types `T` for which `NumThreads` is specialised; `other` stands for every
type that takes the primary template. -/
inductive ElemType
  | bool
  | uint8_T
  | int8_T
  | uint16_T
  | int16_T
  | uint32_T
  | int32_T
  | real32_T
  | real64_T
  | other
  deriving DecidableEq, Repr

/-- `NumThreads<T>::value`: 32 in the primary template, 64 in the specialisations for
`bool` and the 8- and 16-bit integers, 32 in those for the 32-bit integers and the
floating-point types. -/
def NumThreads : ElemType → Nat
  | ElemType.bool => 64
  | ElemType.uint8_T => 64
  | ElemType.int8_T => 64
  | ElemType.uint16_T => 64
  | ElemType.int16_T => 64
  | ElemType.uint32_T => 32
  | ElemType.int32_T => 32
  | ElemType.real32_T => 32
  | ElemType.real64_T => 32
  | ElemType.other => 32

/-- `TILESIZE = (NumThreads<T>::value-2)`. -/
def TILESIZE (T : ElemType) : Nat := NumThreads T - 2

/-- `numTiles = ((nX+TILESIZE-1)/TILESIZE) * ((nY+TILESIZE-1)/TILESIZE)` in `size_t`
arithmetic. -/
def numTiles (T : ElemType) (nX nY : Nat) : Nat :=
  ((((nX + TILESIZE T) % SIZE_MAX_PLUS_ONE + (SIZE_MAX_PLUS_ONE - 1)) %
        SIZE_MAX_PLUS_ONE / TILESIZE T) *
    (((nY + TILESIZE T) % SIZE_MAX_PLUS_ONE + (SIZE_MAX_PLUS_ONE - 1)) %
        SIZE_MAX_PLUS_ONE / TILESIZE T)) % SIZE_MAX_PLUS_ONE

/-- Device memory seen from a base pointer: the byte at each offset. -/
abbrev Bytes := Nat → Nat

/-- `cudaMemset(devPtr, value, count)`: sets the first `count` bytes to `value`
converted to `unsigned char`. -/
def cudaMemset (mem : Bytes) (value count : Nat) : Bytes :=
  fun offset => if offset < count then value % 256 else mem offset

/-- The `uint32_T` stored at index `i` of an array at the base pointer (the four bytes
at offsets `4*i .. 4*i+3`, least significant first). -/
def readUint32 (mem : Bytes) (i : Nat) : Nat :=
  mem (4 * i) + 256 * mem (4 * i + 1) + 65536 * mem (4 * i + 2) + 16777216 * mem (4 * i + 3)

/-- The contents of `dProcessTileFlag` after
`cudaMemset( dProcessTileFlag, 1, sizeof(uint32_T)*numTiles);`. -/
def initProcessTileFlag (T : ElemType) (nX nY : Nat) (mem : Bytes) : Bytes :=
  cudaMemset mem 1 ((4 * numTiles T nX nY) % SIZE_MAX_PLUS_ONE)

end ImreconstructCuda

/-! # Approximate Canny edge detector (`approxcanny_ocv.hpp`) -/

namespace ApproxCanny

end ApproxCanny



namespace BwlabelCuda

/-! ## Arithmetic of `divup` -/

theorem divup_eq_of_no_wrap (n threads : Nat) (ht : 1 ≤ threads)
    (h : n + threads - 1 < UINT32_SIZE) :
    divup n threads = some ((n + threads - 1) / threads) := by
  have hne : threads ≠ 0 := by omega
  have hnum : sub32 (add32 n threads) 1 = n + threads - 1 := by
    unfold sub32 add32 UINT32_SIZE at *
    omega
  simp [divup, hne, hnum]

theorem ceil_div_ge (n t : Nat) (ht : 1 ≤ t) : n ≤ (n + t - 1) / t * t := by
  have h1 := Nat.div_add_mod (n + t - 1) t
  have h2 := Nat.mod_lt (n + t - 1) (show t > 0 by omega)
  have h3 : (n + t - 1) / t * t = t * ((n + t - 1) / t) := Nat.mul_comm _ _
  omega

theorem ceil_div_le (n t q : Nat) (ht : 1 ≤ t) (hq : n ≤ q * t) : (n + t - 1) / t ≤ q := by
  have h : (n + t - 1) / t < q + 1 := by
    rw [Nat.div_lt_iff_lt_mul (by omega)]
    have : (q + 1) * t = q * t + t := by ring
    omega
  omega

theorem ceil_div_le_self (n t : Nat) (ht : 1 ≤ t) : (n + t - 1) / t ≤ n :=
  ceil_div_le n t n ht (Nat.le_mul_of_pos_right n (by omega))

theorem ceil_div_pos (n t : Nat) (ht : 1 ≤ t) (hn : 1 ≤ n) : 1 ≤ (n + t - 1) / t := by
  rw [Nat.le_div_iff_mul_le (by omega)]
  omega

/-- The value of `launchPatterns` on an image whose size does not wrap. -/
theorem launchPatterns_eq (nx ny : Nat) (h1 : 1 ≤ nx * ny) (h2 : nx * ny + 4095 < UINT32_SIZE) :
    launchPatterns nx ny = some
      { numel := nx * ny, work := 16,
        num_blocks := (nx * ny + 4095) / 4096,
        blocks_y := ((nx * ny + 4095) / 4096 + 65534) / 65535,
        blocks1 :=
          { x := ((nx * ny + 4095) / 4096 + ((nx * ny + 4095) / 4096 + 65534) / 65535 - 1) /
                   (((nx * ny + 4095) / 4096 + 65534) / 65535),
            y := ((nx * ny + 4095) / 4096 + 65534) / 65535, z := 1 },
        blocks2 := { x := (nx + 31) / 32, y := (ny + 7) / 8, z := 1 } } := by
  have hnx : 1 ≤ nx := Nat.pos_of_ne_zero (by rintro rfl; simp at h1)
  have hny : 1 ≤ ny := Nat.pos_of_ne_zero (by rintro rfl; simp at h1)
  have hxle : nx ≤ nx * ny := Nat.le_mul_of_pos_right nx hny
  have hyle : ny ≤ nx * ny := Nat.le_mul_of_pos_left ny hnx
  have hnumel : mul32 nx ny = nx * ny := by
    unfold mul32; exact Nat.mod_eq_of_lt (by unfold UINT32_SIZE at *; omega)
  have hw : mul32 16 threads1.x = 4096 := by decide
  have hnb : divup (nx * ny) 4096 = some ((nx * ny + 4095) / 4096) := by
    rw [divup_eq_of_no_wrap (nx * ny) 4096 (by omega) (by unfold UINT32_SIZE at *; omega)]
    congr 1
  have hnble : (nx * ny + 4095) / 4096 ≤ nx * ny := by omega
  have hnbpos : 1 ≤ (nx * ny + 4095) / 4096 := by omega
  have h65535 : 256 * 256 - 1 = 65535 := by norm_num
  have hby : divup ((nx * ny + 4095) / 4096) (256 * 256 - 1) =
      some (((nx * ny + 4095) / 4096 + 65534) / 65535) := by
    rw [h65535, divup_eq_of_no_wrap ((nx * ny + 4095) / 4096) 65535 (by omega)
      (by unfold UINT32_SIZE at *; omega)]
    congr 1
  have hbypos : 1 ≤ ((nx * ny + 4095) / 4096 + 65534) / 65535 := by omega
  have hbyle : ((nx * ny + 4095) / 4096 + 65534) / 65535 ≤ (nx * ny + 4095) / 4096 := by omega
  have hb1 := divup_eq_of_no_wrap ((nx * ny + 4095) / 4096)
    (((nx * ny + 4095) / 4096 + 65534) / 65535) hbypos (by unfold UINT32_SIZE at *; omega)
  have ht2x : threads2.x = 32 := rfl
  have ht2y : threads2.y = 8 := rfl
  have hb2x : divup nx threads2.x = some ((nx + 31) / 32) := by
    rw [ht2x, divup_eq_of_no_wrap nx 32 (by omega) (by unfold UINT32_SIZE at *; omega)]
    congr 1
  have hb2y : divup ny threads2.y = some ((ny + 7) / 8) := by
    rw [ht2y, divup_eq_of_no_wrap ny 8 (by omega) (by unfold UINT32_SIZE at *; omega)]
    congr 1
  unfold launchPatterns
  simp only [hnumel, hw]
  rw [hnb, Option.bind_eq_bind, Option.some_bind, hby, Option.some_bind, hb1, Option.some_bind,
    hb2x, Option.some_bind, hb2y, Option.some_bind]
  rfl

theorem blocks_y_eq_zero_iff (m : Nat) (hm : m < UINT32_SIZE) :
    sub32 (add32 (sub32 (add32 m 4096) 1 / 4096) 65535) 1 / 65535 = 0 ↔
      ¬ (1 ≤ m ∧ m + 4095 < UINT32_SIZE) := by
  have hA : sub32 (add32 m 4096) 1 = (m + 4095) % 4294967296 := by
    unfold sub32 add32 UINT32_SIZE at *
    omega
  rw [hA]
  generalize hnb : (m + 4095) % 4294967296 / 4096 = nb
  have hnb_lt : nb < 1048576 := by omega
  have hB : sub32 (add32 nb 65535) 1 = nb + 65534 := by
    unfold sub32 add32 UINT32_SIZE at *
    omega
  rw [hB]
  unfold UINT32_SIZE at *
  omega

theorem launchPatterns_isSome_iff (nx ny : Nat) :
    (launchPatterns nx ny).isSome = true ↔
      (1 ≤ mul32 nx ny ∧ mul32 nx ny + 4095 < UINT32_SIZE) := by
  have hw : mul32 16 threads1.x = 4096 := by decide
  have hm : mul32 nx ny < UINT32_SIZE := Nat.mod_lt _ (by decide)
  have key := blocks_y_eq_zero_iff (mul32 nx ny) hm
  have ht2x : threads2.x = 32 := rfl
  have ht2y : threads2.y = 8 := rfl
  by_cases hby : sub32 (add32 (sub32 (add32 (mul32 nx ny) 4096) 1 / 4096) 65535) 1 / 65535 = 0
  · have hno := key.mp hby
    have h0 : launchPatterns nx ny = none := by
      unfold launchPatterns
      simp only [hw]
      unfold divup
      rw [if_neg (by decide), Option.bind_eq_bind, Option.some_bind, if_neg (by decide),
        Option.some_bind, hby, if_pos rfl]
      rfl
    rw [h0]
    simp [hno]
  · have hyes : 1 ≤ mul32 nx ny ∧ mul32 nx ny + 4095 < UINT32_SIZE := by
      by_contra hc; exact hby (key.mpr hc)
    have h1 : ∃ p, launchPatterns nx ny = some p := by
      unfold launchPatterns
      simp only [hw, ht2x, ht2y]
      unfold divup
      rw [if_neg (by decide), Option.bind_eq_bind, Option.some_bind, if_neg (by decide),
        Option.some_bind, if_neg hby, Option.some_bind, if_neg (by decide), Option.some_bind,
        if_neg (by decide), Option.some_bind]
      exact ⟨_, rfl⟩
    obtain ⟨p, hp⟩ := h1
    rw [hp]
    simp [hyes]

/-! ## Claims on the launch geometry -/

/-- C9 (amended): for every `n` and every `threads >= 1` such that `n + threads - 1` does
not wrap in 32 bits, `divup n threads` is the ceiling of `n / threads`: the smallest `q`
with `q * threads >= n`. -/
theorem divup_is_ceiling_of_no_wrap (n threads : Nat) (ht : 1 ≤ threads)
    (h : n + threads - 1 < 2 ^ 32) :
    ∃ q, divup n threads = some q ∧ n ≤ q * threads ∧ ∀ q', n ≤ q' * threads → q ≤ q' :=
  ⟨(n + threads - 1) / threads, divup_eq_of_no_wrap n threads ht (by unfold UINT32_SIZE; omega),
    ceil_div_ge n threads ht, fun q' hq' => ceil_div_le n threads q' ht hq'⟩

theorem divup_is_ceiling_of_no_wrap_witness :
    ∃ q, divup 4097 4096 = some q ∧ 4097 ≤ q * 4096 ∧ ∀ q', 4097 ≤ q' * 4096 → q ≤ q' :=
  divup_is_ceiling_of_no_wrap 4097 4096 (by decide) (by decide)

/-- C9 (as stated) fails: for the 32-bit value `n = 2^32 - 1` and `threads = 2` the sum
`n + threads - 1` wraps to `0`, so `divup` returns `0`, which is not the ceiling `2^31`
of `n / threads`: `0 * 2 < n`. -/
theorem divup_wraps_counterexample :
    (4294967295 < 2 ^ 32 ∧ 1 ≤ 2) ∧ divup 4294967295 2 = some 0 ∧ ¬ (4294967295 ≤ 0 * 2) := by
  decide

/-- C4: when `1 <= nx*ny` and `nx*ny + 4095 < 2^32`, the launch patterns are computed,
`num_blocks` is the ceiling of `nx*ny / 4096`, the 1-D grid has at least `num_blocks`
blocks and these cover every pixel index, and the 2-D grid of 32x8 tiles covers every
pixel `(x, y)`. -/
theorem launch_geometry_covers_image (nx ny : Nat) (h1 : 1 ≤ nx * ny)
    (h2 : nx * ny + 4095 < 2 ^ 32) :
    ∃ p, launchPatterns nx ny = some p ∧
      p.numel = nx * ny ∧
      (nx * ny ≤ p.num_blocks * (16 * 256) ∧ p.num_blocks * (16 * 256) < nx * ny + 16 * 256) ∧
      p.num_blocks ≤ p.blocks1.x * p.blocks1.y ∧
      nx * ny ≤ p.num_blocks * 256 * 16 ∧
      (∀ i, i < nx * ny → i / (256 * 16) < p.blocks1.x * p.blocks1.y) ∧
      p.blocks2 = { x := (nx + 31) / 32, y := (ny + 7) / 8, z := 1 } ∧
      nx ≤ p.blocks2.x * 32 ∧ ny ≤ p.blocks2.y * 8 ∧
      (∀ x y, x < nx → y < ny → x / 32 < p.blocks2.x ∧ y / 8 < p.blocks2.y) := by
  refine ⟨_, launchPatterns_eq nx ny h1 (by unfold UINT32_SIZE; omega), rfl, ?_, ?_, ?_, ?_, rfl,
    ?_, ?_, ?_⟩
  · dsimp only; omega
  · dsimp only
    have hby : 1 ≤ ((nx * ny + 4095) / 4096 + 65534) / 65535 := by omega
    exact ceil_div_ge _ _ hby
  · dsimp only; omega
  · intro i hi
    dsimp only
    have hby : 1 ≤ ((nx * ny + 4095) / 4096 + 65534) / 65535 := by omega
    have hc := ceil_div_ge ((nx * ny + 4095) / 4096) _ hby
    omega
  · dsimp only; omega
  · dsimp only; omega
  · intro x y hx hy
    dsimp only; omega

theorem launch_geometry_covers_image_witness :
    ∃ p, launchPatterns 640 480 = some p ∧
      p.numel = 640 * 480 ∧
      (640 * 480 ≤ p.num_blocks * (16 * 256) ∧
        p.num_blocks * (16 * 256) < 640 * 480 + 16 * 256) ∧
      p.num_blocks ≤ p.blocks1.x * p.blocks1.y ∧
      640 * 480 ≤ p.num_blocks * 256 * 16 ∧
      (∀ i, i < 640 * 480 → i / (256 * 16) < p.blocks1.x * p.blocks1.y) ∧
      p.blocks2 = { x := (640 + 31) / 32, y := (480 + 7) / 8, z := 1 } ∧
      640 ≤ p.blocks2.x * 32 ∧ 480 ≤ p.blocks2.y * 8 ∧
      (∀ x y, x < 640 → y < 480 → x / 32 < p.blocks2.x ∧ y / 8 < p.blocks2.y) :=
  launch_geometry_covers_image 640 480 (by decide) (by decide)

/-- C5: when `1 <= nx*ny` and `nx*ny + 4095 < 2^32`, neither dimension of the folded 1-D
grid exceeds `65535`, and the grid is not folded (`blocks1.y = 1`, `blocks1.x = num_blocks`)
whenever `num_blocks <= 65535`. -/
theorem blocks1_within_grid_limit (nx ny : Nat) (h1 : 1 ≤ nx * ny)
    (h2 : nx * ny + 4095 < 2 ^ 32) :
    ∃ p, launchPatterns nx ny = some p ∧
      p.blocks1.x ≤ 65535 ∧ p.blocks1.y ≤ 65535 ∧
      (p.num_blocks ≤ 65535 → p.blocks1.y = 1 ∧ p.blocks1.x = p.num_blocks) := by
  refine ⟨_, launchPatterns_eq nx ny h1 (by unfold UINT32_SIZE; omega), ?_, ?_, ?_⟩
  · dsimp only
    have hby : 1 ≤ ((nx * ny + 4095) / 4096 + 65534) / 65535 := by omega
    apply ceil_div_le _ _ _ hby
    omega
  · dsimp only; omega
  · dsimp only
    intro hnb
    have hby : ((nx * ny + 4095) / 4096 + 65534) / 65535 = 1 := by omega
    rw [hby]
    exact ⟨rfl, by simp⟩

theorem blocks1_within_grid_limit_witness :
    ∃ p, launchPatterns 65535 65536 = some p ∧
      p.blocks1.x ≤ 65535 ∧ p.blocks1.y ≤ 65535 ∧
      (p.num_blocks ≤ 65535 → p.blocks1.y = 1 ∧ p.blocks1.x = p.num_blocks) :=
  blocks1_within_grid_limit 65535 65536 (by decide) (by decide)

/-- C6 (failing input): for the image `nx = 1`, `ny = 524281` the 2-D grid of the
neighbourhood-scan kernels is `blocks2 = (1, 65536)`; its `y` dimension exceeds `65535`,
while the 1-D grid of the same call stays below the limit. -/
theorem blocks2_exceeds_grid_limit :
    launchPatterns 1 524281 = some
      { numel := 524281, work := 16, num_blocks := 128, blocks_y := 1,
        blocks1 := { x := 128, y := 1, z := 1 },
        blocks2 := { x := 1, y := 65536, z := 1 } } ∧ ¬ (65536 ≤ 65535) := by
  decide

/-- C7 (amended): computing the launch patterns raises no error exactly when the 32-bit
product `numel = nx*ny mod 2^32` satisfies `1 <= numel` and `numel + 4095 < 2^32`. -/
theorem launchPatterns_no_error_iff (nx ny : Nat) :
    (∃ p, launchPatterns nx ny = some p) ↔
      (1 ≤ (nx * ny) % 2 ^ 32 ∧ (nx * ny) % 2 ^ 32 + 4095 < 2 ^ 32) := by
  have h := launchPatterns_isSome_iff nx ny
  rw [Option.isSome_iff_exists] at h
  simpa [mul32, UINT32_SIZE] using h

/-- C7 (as stated) fails: for `nx = 0`, `ny = 7` the computation yields `numel = 0`,
`num_blocks = 0` and `blocks_y = 0`, and `divup num_blocks blocks_y` divides by zero; the
same happens when the product wraps to zero (`65536 * 65536`) or when `numel + 4095`
wraps (`65535 * 65537 = 2^32 - 1`). -/
theorem launchPatterns_division_by_zero :
    (mul32 0 7 = 0 ∧ divup 0 (mul32 16 threads1.x) = some 0 ∧ divup 0 (256 * 256 - 1) = some 0 ∧
      divup 0 0 = none ∧ launchPatterns 0 7 = none) ∧
    launchPatterns 65536 65536 = none ∧ launchPatterns 65535 65537 = none := by
  decide

/-- C10: when `1 <= nx*ny` and `nx*ny + 4095 < 2^32`, the block-total scan is launched on
`d_labels_final` (as `d_blocksums`) with an entry count of `num_blocks + 1`, where
`num_blocks` is the ceiling of `nx*ny / 4096`, and these `num_blocks + 1` entries of
`uint32_T` (4 bytes each) fit in the `nx*ny` doubles (8 bytes each) of `d_labels_final`. -/
theorem blocksums_fit_in_final_buffer (nx ny : Nat) (h1 : 1 ≤ nx * ny)
    (h2 : nx * ny + 4095 < 2 ^ 32) :
    ∃ p, launchPatterns nx ny = some p ∧ p.num_blocks = (nx * ny + 4095) / 4096 ∧
      (∀ tmpVal2, (partialSumSPLaunch p tmpVal2).args =
        [Arg.ptr Buffer.d_labels_final, Arg.ptr Buffer.d_labels_final, Arg.null,
         Arg.size (p.num_blocks + 1), Arg.size tmpVal2]) ∧
      4 * (p.num_blocks + 1) ≤ 8 * (nx * ny) := by
  refine ⟨_, launchPatterns_eq nx ny h1 (by unfold UINT32_SIZE; omega), rfl, ?_, ?_⟩
  · intro t
    have hadd : add32 ((nx * ny + 4095) / 4096) 1 = (nx * ny + 4095) / 4096 + 1 := by
      unfold add32 UINT32_SIZE
      omega
    simp only [partialSumSPLaunch, hadd]
  · dsimp only
    omega

theorem blocksums_fit_in_final_buffer_witness :
    ∃ p, launchPatterns 1 1 = some p ∧ p.num_blocks = (1 * 1 + 4095) / 4096 ∧
      (∀ tmpVal2, (partialSumSPLaunch p tmpVal2).args =
        [Arg.ptr Buffer.d_labels_final, Arg.ptr Buffer.d_labels_final, Arg.null,
         Arg.size (p.num_blocks + 1), Arg.size tmpVal2]) ∧
      4 * (p.num_blocks + 1) ≤ 8 * (1 * 1) :=
  blocksums_fit_in_final_buffer 1 1 (by decide) (by decide)

/-! ## The driver loop -/

theorem scanningLaunch_kernel (is8 : Bool) (p : LaunchPatterns) (nx ny : Nat) :
    (scanningLaunch is8 p nx ny).kernel =
      if is8 then Kernel.ScanningTrueKernel else Kernel.ScanningFalseKernel := by
  cases is8 <;> rfl

theorem scanningLaunch_isScanning (is8 : Bool) (p : LaunchPatterns) (nx ny : Nat) :
    (scanningLaunch is8 p nx ny).kernel.isScanning = true := by
  cases is8 <;> rfl

theorem fixpointLoop_succ {σ : Type} (dev : Device σ) (is8 : Bool) (p : LaunchPatterns)
    (nx ny fuel : Nat) (s : σ) :
    fixpointLoop dev is8 p nx ny (fuel + 1) s =
      if dev.cuMemcpyDtoH (dev.launchKernelWithCheck (scanningLaunch is8 p nx ny) s) ≠ 0 then
        fixpointLoop dev is8 p nx ny fuel
          (dev.launchKernelWithCheck (analysisLaunch p)
            (dev.launchKernelWithCheck (scanningLaunch is8 p nx ny) s))
      else
        Except.ok (dev.launchKernelWithCheck (analysisLaunch p)
          (dev.launchKernelWithCheck (scanningLaunch is8 p nx ny) s)) := rfl

/-- The value the driver computes for `tmpVal2`. -/
theorem divup_tmpVal2 (p : LaunchPatterns) :
    divup (add32 p.num_blocks 1) threads1.x =
      some (sub32 (add32 (add32 p.num_blocks 1) 256) 1 / 256) := by
  have h : threads1.x = 256 := rfl
  rw [h]
  unfold divup
  rw [if_neg (by decide)]

theorem compactAndFinalize_eq {σ : Type} (dev : Device σ) (p : LaunchPatterns) (s : σ) :
    compactAndFinalize dev p s =
      Except.ok (dev.launchKernelWithCheck (finalizeLaunch p)
        (dev.launchKernelWithCheck (fullSumLaunch p)
          (dev.launchKernelWithCheck
            (partialSumSPLaunch p (sub32 (add32 (add32 p.num_blocks 1) 256) 1 / 256))
            (dev.launchKernelWithCheck (partialSumFPLaunch p) s)))) := by
  unfold compactAndFinalize
  rw [divup_tmpVal2]
  rfl

theorem bwlabel_cuda_of_patterns {σ : Type} (dev : Device σ) (fuel nhood nx ny : Nat) (s : σ)
    (p : LaunchPatterns) (hp : launchPatterns nx ny = some p) :
    bwlabel_cuda dev fuel nhood nx ny s =
      (fixpointLoop dev (nhood == 8) p nx ny fuel
        (dev.launchKernelWithCheck (initializeLaunch p) s)).bind (compactAndFinalize dev p) := by
  show bwlabelLaunches dev fuel nhood nx ny s (launchPatterns nx ny) = _
  rw [hp]
  rfl

theorem bwlabel_cuda_of_no_patterns {σ : Type} (dev : Device σ) (fuel nhood nx ny : Nat) (s : σ)
    (hp : launchPatterns nx ny = none) :
    bwlabel_cuda dev fuel nhood nx ny s = Except.error Err.divisionByZero := by
  show bwlabelLaunches dev fuel nhood nx ny s (launchPatterns nx ny) = _
  rw [hp]
  rfl

theorem traceDevice_launch_scanning (flags : Nat → Nat) (is8 : Bool) (p : LaunchPatterns)
    (nx ny : Nat) (s : TraceState) :
    (traceDevice flags).launchKernelWithCheck (scanningLaunch is8 p nx ny) s =
      { launches := s.launches ++ [scanningLaunch is8 p nx ny], scans := s.scans + 1,
        d_modified := flags s.scans } := by
  simp [traceDevice, scanningLaunch_isScanning]

theorem traceDevice_launch_other (flags : Nat → Nat) (l : Launch) (s : TraceState)
    (hl : l.kernel.isScanning = false) :
    (traceDevice flags).launchKernelWithCheck l s =
      { launches := s.launches ++ [l], scans := s.scans, d_modified := s.d_modified } := by
  simp [traceDevice, hl]

/-- On the recording device, if the first zero flag is the one left by scanning pass
`k` (counting from zero from the current state), the loop returns after `k + 1`
iterations. -/
theorem fixpointLoop_trace (flags : Nat → Nat) (is8 : Bool) (p : LaunchPatterns) (nx ny : Nat) :
    ∀ (k fuel : Nat) (s : TraceState), k < fuel →
      (∀ i, i < k → flags (s.scans + i) ≠ 0) → flags (s.scans + k) = 0 →
      fixpointLoop (traceDevice flags) is8 p nx ny fuel s =
        Except.ok { launches := s.launches ++ loopLaunches is8 p nx ny (k + 1),
                    scans := s.scans + k + 1, d_modified := 0 } := by
  intro k
  induction k with
  | zero =>
    intro fuel s hfuel _ hz
    obtain ⟨f, rfl⟩ : ∃ f, fuel = f + 1 := ⟨fuel - 1, by omega⟩
    rw [fixpointLoop_succ, traceDevice_launch_scanning,
      traceDevice_launch_other _ _ _ (by rfl)]
    have hz0 : flags s.scans = 0 := by simpa using hz
    simp [traceDevice, hz0, loopLaunches]
  | succ k ih =>
    intro fuel s hfuel hnz hz
    obtain ⟨f, rfl⟩ : ∃ f, fuel = f + 1 := ⟨fuel - 1, by omega⟩
    rw [fixpointLoop_succ, traceDevice_launch_scanning,
      traceDevice_launch_other _ _ _ (by rfl)]
    have h0 : flags s.scans ≠ 0 := by simpa using hnz 0 (by omega)
    have hcopy : (traceDevice flags).cuMemcpyDtoH
        { launches := s.launches ++ [scanningLaunch is8 p nx ny], scans := s.scans + 1,
          d_modified := flags s.scans } = flags s.scans := rfl
    rw [hcopy, if_pos h0]
    rw [ih f _ (by omega)
      (by intro i hi; have := hnz (i + 1) (by omega); simpa [Nat.add_assoc, Nat.add_comm 1] using this)
      (by simpa [Nat.add_assoc, Nat.add_comm 1] using hz)]
    simp [loopLaunches, Nat.add_assoc, Nat.add_comm 1]

theorem loopLaunches_kernels (is8 : Bool) (p : LaunchPatterns) (nx ny : Nat) (n : Nat) :
    (loopLaunches is8 p nx ny n).map (fun l => l.kernel) =
      (List.replicate n
        [if is8 then Kernel.ScanningTrueKernel else Kernel.ScanningFalseKernel,
         Kernel.AnalysisKernel]).flatten := by
  induction n with
  | zero => rfl
  | succ n ih =>
    simp only [loopLaunches, List.map_cons, List.replicate_succ, List.flatten_cons, ih,
      scanningLaunch_kernel]
    rfl

theorem fixpointLoop_trace_launches (flags : Nat → Nat) (is8 : Bool) (p : LaunchPatterns)
    (nx ny : Nat) :
    ∀ (fuel : Nat) (s s' : TraceState),
      fixpointLoop (traceDevice flags) is8 p nx ny fuel s = Except.ok s' →
      ∀ l, l ∈ s'.launches →
        l ∈ s.launches ∨ l = scanningLaunch is8 p nx ny ∨ l = analysisLaunch p := by
  intro fuel
  induction fuel with
  | zero => intro s s' h; simp [fixpointLoop] at h
  | succ f ih =>
    intro s s' h l hl
    rw [fixpointLoop_succ, traceDevice_launch_scanning,
      traceDevice_launch_other _ _ _ (by rfl)] at h
    split at h
    · rcases ih _ _ h l hl with h1 | h1 | h1
      · simp only [List.mem_append, List.mem_singleton] at h1
        tauto
      · exact Or.inr (Or.inl h1)
      · exact Or.inr (Or.inr h1)
    · cases h
      simp only [List.mem_append, List.mem_singleton] at hl
      tauto

/-- One iteration that starts with a clear flag and reads a nonzero flag strictly lowers
the sum of the labels. -/
theorem labelSum_decreases {σ : Type} (dev : Device σ) (labels : σ → Nat → Nat)
    (numel : Nat) (is8 : Bool) (p : LaunchPatterns) (nx ny : Nat)
    (hscan : ∀ s i, labels (dev.launchKernelWithCheck (scanningLaunch is8 p nx ny) s) i ≤
      labels s i)
    (hflag : ∀ s, dev.cuMemcpyDtoH s = 0 →
      dev.cuMemcpyDtoH (dev.launchKernelWithCheck (scanningLaunch is8 p nx ny) s) ≠ 0 →
      ∃ i, i < numel ∧
        labels (dev.launchKernelWithCheck (scanningLaunch is8 p nx ny) s) i < labels s i)
    (hres : ∀ s i, labels (dev.launchKernelWithCheck (analysisLaunch p) s) i ≤ labels s i)
    (s : σ) (hclear : dev.cuMemcpyDtoH s = 0)
    (hf : dev.cuMemcpyDtoH (dev.launchKernelWithCheck (scanningLaunch is8 p nx ny) s) ≠ 0) :
    (Finset.range numel).sum (labels (dev.launchKernelWithCheck (analysisLaunch p)
      (dev.launchKernelWithCheck (scanningLaunch is8 p nx ny) s))) <
      (Finset.range numel).sum (labels s) := by
  obtain ⟨i, hi, hlt⟩ := hflag s hclear hf
  apply Finset.sum_lt_sum
  · intro j _
    exact le_trans (hres _ j) (hscan s j)
  · exact ⟨i, Finset.mem_range.mpr hi, lt_of_le_of_lt (hres _ i) hlt⟩

/-- One iteration never raises the sum of the labels. -/
theorem labelSum_le {σ : Type} (dev : Device σ) (labels : σ → Nat → Nat)
    (numel : Nat) (is8 : Bool) (p : LaunchPatterns) (nx ny : Nat)
    (hscan : ∀ s i, labels (dev.launchKernelWithCheck (scanningLaunch is8 p nx ny) s) i ≤
      labels s i)
    (hres : ∀ s i, labels (dev.launchKernelWithCheck (analysisLaunch p) s) i ≤ labels s i)
    (s : σ) :
    (Finset.range numel).sum (labels (dev.launchKernelWithCheck (analysisLaunch p)
      (dev.launchKernelWithCheck (scanningLaunch is8 p nx ny) s))) ≤
      (Finset.range numel).sum (labels s) :=
  Finset.sum_le_sum (fun j _ => le_trans (hres _ j) (hscan s j))

/-- Termination of the loop from a state whose flag is clear, on a device whose labels
never increase, whose scanning pass sets the flag only after a strict decrease and whose
analysis pass resets the flag: at most `sum of labels + 1` iterations. -/
theorem fixpointLoop_terminates_aux {σ : Type} (dev : Device σ) (labels : σ → Nat → Nat)
    (numel : Nat) (is8 : Bool) (p : LaunchPatterns) (nx ny : Nat)
    (hscan : ∀ s i, labels (dev.launchKernelWithCheck (scanningLaunch is8 p nx ny) s) i ≤
      labels s i)
    (hflag : ∀ s, dev.cuMemcpyDtoH s = 0 →
      dev.cuMemcpyDtoH (dev.launchKernelWithCheck (scanningLaunch is8 p nx ny) s) ≠ 0 →
      ∃ i, i < numel ∧
        labels (dev.launchKernelWithCheck (scanningLaunch is8 p nx ny) s) i < labels s i)
    (hres : ∀ s i, labels (dev.launchKernelWithCheck (analysisLaunch p) s) i ≤ labels s i)
    (hreset : ∀ s, dev.cuMemcpyDtoH (dev.launchKernelWithCheck (analysisLaunch p) s) = 0) :
    ∀ (N : Nat) (s : σ), dev.cuMemcpyDtoH s = 0 → (Finset.range numel).sum (labels s) ≤ N →
      ∃ n s', n ≤ N + 1 ∧ ∀ fuel, n ≤ fuel →
        fixpointLoop dev is8 p nx ny fuel s = Except.ok s' := by
  intro N
  induction N with
  | zero =>
    intro s hclear hs
    by_cases hf : dev.cuMemcpyDtoH (dev.launchKernelWithCheck (scanningLaunch is8 p nx ny) s) ≠ 0
    · have := labelSum_decreases dev labels numel is8 p nx ny hscan hflag hres s hclear hf
      omega
    · refine ⟨1, (dev.launchKernelWithCheck (analysisLaunch p)
        (dev.launchKernelWithCheck (scanningLaunch is8 p nx ny) s)), le_refl _, ?_⟩
      intro fuel hfuel
      obtain ⟨f, rfl⟩ : ∃ f, fuel = f + 1 := ⟨fuel - 1, by omega⟩
      rw [fixpointLoop_succ, if_neg hf]
  | succ M ih =>
    intro s hclear hs
    by_cases hf : dev.cuMemcpyDtoH (dev.launchKernelWithCheck (scanningLaunch is8 p nx ny) s) ≠ 0
    · have hlt := labelSum_decreases dev labels numel is8 p nx ny hscan hflag hres s hclear hf
      obtain ⟨n, s', hn, hrun⟩ := ih (dev.launchKernelWithCheck (analysisLaunch p)
        (dev.launchKernelWithCheck (scanningLaunch is8 p nx ny) s)) (hreset _) (by omega)
      refine ⟨n + 1, s', by omega, ?_⟩
      intro fuel hfuel
      obtain ⟨f, rfl⟩ : ∃ f, fuel = f + 1 := ⟨fuel - 1, by omega⟩
      rw [fixpointLoop_succ, if_pos hf]
      exact hrun f (by omega)
    · refine ⟨1, (dev.launchKernelWithCheck (analysisLaunch p)
        (dev.launchKernelWithCheck (scanningLaunch is8 p nx ny) s)), by omega, ?_⟩
      intro fuel hfuel
      obtain ⟨f, rfl⟩ : ∃ f, fuel = f + 1 := ⟨fuel - 1, by omega⟩
      rw [fixpointLoop_succ, if_neg hf]

/-- The complete run of the driver on the recording device when the first zero flag is
the one left by scanning pass `j` (counting from zero). -/
theorem bwlabel_cuda_trace (flags : Nat → Nat) (j : Nat)
    (hnz : ∀ i, i < j → flags i ≠ 0) (hz : flags j = 0)
    (fuel : Nat) (hfuel : j < fuel) (nhood nx ny d : Nat)
    (p : LaunchPatterns) (hp : launchPatterns nx ny = some p) :
    bwlabel_cuda (traceDevice flags) fuel nhood nx ny
        { launches := [], scans := 0, d_modified := d } =
      Except.ok
        { launches := (((([] ++ [initializeLaunch p]) ++
            loopLaunches (nhood == 8) p nx ny (j + 1)) ++ [partialSumFPLaunch p]) ++
            [partialSumSPLaunch p (sub32 (add32 (add32 p.num_blocks 1) 256) 1 / 256)] ++
            [fullSumLaunch p]) ++ [finalizeLaunch p],
          scans := 0 + j + 1, d_modified := 0 } := by
  rw [bwlabel_cuda_of_patterns _ _ _ _ _ _ p hp, traceDevice_launch_other _ _ _ (by rfl),
    fixpointLoop_trace flags (nhood == 8) p nx ny j fuel _ hfuel
      (by intro i hi; simpa using hnz i hi) (by simpa using hz)]
  show compactAndFinalize (traceDevice flags) p _ = _
  rw [compactAndFinalize_eq, traceDevice_launch_other _ _ _ (by rfl),
    traceDevice_launch_other _ _ _ (by rfl), traceDevice_launch_other _ _ _ (by rfl),
    traceDevice_launch_other _ _ _ (by rfl)]

/-- On the recording device a returning loop has launched its scanning kernel, and keeps
every launch recorded before it. -/
theorem fixpointLoop_trace_scans (flags : Nat → Nat) (is8 : Bool) (p : LaunchPatterns)
    (nx ny : Nat) :
    ∀ (fuel : Nat) (s s' : TraceState),
      fixpointLoop (traceDevice flags) is8 p nx ny fuel s = Except.ok s' →
      ∀ l, (l ∈ s.launches ∨ l = scanningLaunch is8 p nx ny) → l ∈ s'.launches := by
  intro fuel
  induction fuel with
  | zero => intro s s' h; simp [fixpointLoop] at h
  | succ f ih =>
    intro s s' h l hl
    rw [fixpointLoop_succ, traceDevice_launch_scanning,
      traceDevice_launch_other _ _ _ (by rfl)] at h
    have hmem : l ∈ (s.launches ++ [scanningLaunch is8 p nx ny]) ++ [analysisLaunch p] := by
      simp only [List.mem_append, List.mem_singleton]
      tauto
    split at h
    · exact ih _ _ h l (Or.inl hmem)
    · cases h
      exact hmem

/-! ## Claims on the driver loop -/

/-- C2: on a device whose scanning passes leave the flags `flags 0, flags 1, ...`, if the
first zero flag is the one read in iteration `j + 1`, the driver returns (given fuel for
`j + 1` iterations) having launched: the initialisation, then exactly `j + 1` times a
scanning kernel followed by the analysis kernel, then the three scan kernels and the
finaliser; `j + 1` scanning passes were run in all. -/
theorem driver_loop_alternates (flags : Nat → Nat) (j : Nat)
    (hnz : ∀ i, i < j → flags i ≠ 0) (hz : flags j = 0)
    (fuel : Nat) (hfuel : j < fuel) (nhood nx ny d : Nat)
    (p : LaunchPatterns) (hp : launchPatterns nx ny = some p) :
    ∃ s', bwlabel_cuda (traceDevice flags) fuel nhood nx ny
        { launches := [], scans := 0, d_modified := d } = Except.ok s' ∧
      s'.scans = j + 1 ∧
      s'.launches.map (fun l => l.kernel) =
        Kernel.InitializeKernel ::
          ((List.replicate (j + 1)
              [if nhood == 8 then Kernel.ScanningTrueKernel else Kernel.ScanningFalseKernel,
               Kernel.AnalysisKernel]).flatten ++
            [Kernel.PartialSumTrueKernel, Kernel.PartialSumFalseKernel, Kernel.FullSumKernel,
             Kernel.FinalizeKernel]) := by
  refine ⟨_, bwlabel_cuda_trace flags j hnz hz fuel hfuel nhood nx ny d p hp, by simp, ?_⟩
  simp only [List.nil_append, List.map_append, List.map_cons, List.map_nil, List.append_assoc,
    List.singleton_append, List.cons_append, loopLaunches_kernels]
  rfl

theorem driver_loop_alternates_witness :
    ∃ s', bwlabel_cuda (traceDevice (fun k => if k < 2 then 1 else 0)) 5 4 5 7
        { launches := [], scans := 0, d_modified := 0 } = Except.ok s' ∧
      s'.scans = 2 + 1 ∧
      s'.launches.map (fun l => l.kernel) =
        Kernel.InitializeKernel ::
          ((List.replicate (2 + 1)
              [if 4 == 8 then Kernel.ScanningTrueKernel else Kernel.ScanningFalseKernel,
               Kernel.AnalysisKernel]).flatten ++
            [Kernel.PartialSumTrueKernel, Kernel.PartialSumFalseKernel, Kernel.FullSumKernel,
             Kernel.FinalizeKernel]) :=
  driver_loop_alternates (fun k => if k < 2 then 1 else 0) 2
    (by intro i hi; simp [hi]) (by simp) 5 (by decide) 4 5 7 0 _
    (launchPatterns_eq 5 7 (by decide) (by decide))

/-- C3: if a scanning pass never increases a label and, started with a clear flag, leaves
a nonzero flag only when it strictly decreased some label among the first `numel`, and an
analysis pass never increases a label and resets the flag (as the source says of it), then
from every device state, whatever the labels and the flag, the loop returns after at most
`(sum of the first numel labels) + 2` iterations (`+ 1` when the flag starts clear), and
every iteration that starts with a clear flag and reads a nonzero flag strictly lowers that
sum. -/
theorem fixpoint_loop_terminates {σ : Type} (dev : Device σ) (labels : σ → Nat → Nat)
    (numel : Nat) (is8 : Bool) (p : LaunchPatterns) (nx ny : Nat)
    (hscan : ∀ s i, labels (dev.launchKernelWithCheck (scanningLaunch is8 p nx ny) s) i ≤
      labels s i)
    (hflag : ∀ s, dev.cuMemcpyDtoH s = 0 →
      dev.cuMemcpyDtoH (dev.launchKernelWithCheck (scanningLaunch is8 p nx ny) s) ≠ 0 →
      ∃ i, i < numel ∧
        labels (dev.launchKernelWithCheck (scanningLaunch is8 p nx ny) s) i < labels s i)
    (hres : ∀ s i, labels (dev.launchKernelWithCheck (analysisLaunch p) s) i ≤ labels s i)
    (hreset : ∀ s, dev.cuMemcpyDtoH (dev.launchKernelWithCheck (analysisLaunch p) s) = 0)
    (s : σ) :
    (∃ n s', n ≤ (Finset.range numel).sum (labels s) + 2 ∧
      (dev.cuMemcpyDtoH s = 0 → n ≤ (Finset.range numel).sum (labels s) + 1) ∧
      ∀ fuel, n ≤ fuel → fixpointLoop dev is8 p nx ny fuel s = Except.ok s') ∧
    (∀ s0, dev.cuMemcpyDtoH s0 = 0 →
      dev.cuMemcpyDtoH (dev.launchKernelWithCheck (scanningLaunch is8 p nx ny) s0) ≠ 0 →
      (Finset.range numel).sum (labels (dev.launchKernelWithCheck (analysisLaunch p)
        (dev.launchKernelWithCheck (scanningLaunch is8 p nx ny) s0))) <
        (Finset.range numel).sum (labels s0)) := by
  refine ⟨?_, fun s0 h0 hf =>
    labelSum_decreases dev labels numel is8 p nx ny hscan hflag hres s0 h0 hf⟩
  by_cases hclear : dev.cuMemcpyDtoH s = 0
  · obtain ⟨n, s', hn, hrun⟩ := fixpointLoop_terminates_aux dev labels numel is8 p nx ny
      hscan hflag hres hreset _ s hclear (le_refl _)
    exact ⟨n, s', by omega, fun _ => hn, hrun⟩
  · by_cases hf : dev.cuMemcpyDtoH (dev.launchKernelWithCheck (scanningLaunch is8 p nx ny) s) ≠ 0
    · have hle := labelSum_le dev labels numel is8 p nx ny hscan hres s
      obtain ⟨n, s', hn, hrun⟩ := fixpointLoop_terminates_aux dev labels numel is8 p nx ny
        hscan hflag hres hreset _ (dev.launchKernelWithCheck (analysisLaunch p)
          (dev.launchKernelWithCheck (scanningLaunch is8 p nx ny) s)) (hreset _) hle
      refine ⟨n + 1, s', by omega, fun h => absurd h hclear, ?_⟩
      intro fuel hfuel
      obtain ⟨f, rfl⟩ : ∃ f, fuel = f + 1 := ⟨fuel - 1, by omega⟩
      rw [fixpointLoop_succ, if_pos hf]
      exact hrun f (by omega)
    · refine ⟨1, (dev.launchKernelWithCheck (analysisLaunch p)
        (dev.launchKernelWithCheck (scanningLaunch is8 p nx ny) s)), by omega,
        fun h => absurd h hclear, ?_⟩
      intro fuel hfuel
      obtain ⟨f, rfl⟩ : ∃ f, fuel = f + 1 := ⟨fuel - 1, by omega⟩
      rw [fixpointLoop_succ, if_neg hf]

theorem countdownDevice_scan (is8 : Bool) (p : LaunchPatterns) (nx ny : Nat) (s : Nat × Nat) :
    countdownDevice.launchKernelWithCheck (scanningLaunch is8 p nx ny) s =
      if s.1 = 0 then s else (s.1 - 1, 1) := by
  simp [countdownDevice, scanningLaunch_isScanning]

theorem countdownDevice_analysis (p : LaunchPatterns) (s : Nat × Nat) :
    countdownDevice.launchKernelWithCheck (analysisLaunch p) s = (s.1, 0) := by
  simp [countdownDevice, analysisLaunch, Kernel.isScanning]

theorem fixpoint_loop_terminates_witness :
    (∃ n s', n ≤ (Finset.range 1).sum (fun _ => 3) + 2 ∧
      ((3, 7).2 = 0 → n ≤ (Finset.range 1).sum (fun _ => 3) + 1) ∧
      ∀ fuel, n ≤ fuel →
        fixpointLoop countdownDevice true
          { numel := 1, work := 16, num_blocks := 1, blocks_y := 1,
            blocks1 := { x := 1, y := 1, z := 1 }, blocks2 := { x := 1, y := 1, z := 1 } }
          1 1 fuel (3, 7) = Except.ok s') ∧
    (∀ s0 : Nat × Nat, s0.2 = 0 →
      (countdownDevice.launchKernelWithCheck (scanningLaunch true
          { numel := 1, work := 16, num_blocks := 1, blocks_y := 1,
            blocks1 := { x := 1, y := 1, z := 1 }, blocks2 := { x := 1, y := 1, z := 1 } }
          1 1) s0).2 ≠ 0 →
      (Finset.range 1).sum (fun _ => (countdownDevice.launchKernelWithCheck (analysisLaunch
          { numel := 1, work := 16, num_blocks := 1, blocks_y := 1,
            blocks1 := { x := 1, y := 1, z := 1 }, blocks2 := { x := 1, y := 1, z := 1 } })
        (countdownDevice.launchKernelWithCheck (scanningLaunch true
          { numel := 1, work := 16, num_blocks := 1, blocks_y := 1,
            blocks1 := { x := 1, y := 1, z := 1 }, blocks2 := { x := 1, y := 1, z := 1 } }
          1 1) s0)).1) <
        (Finset.range 1).sum (fun _ => s0.1)) :=
  fixpoint_loop_terminates countdownDevice (fun s _ => s.1) 1 true _ 1 1
    (by
      intro s i
      rw [countdownDevice_scan]
      split
      · exact le_refl _
      · exact Nat.sub_le _ _)
    (by
      intro s hclear h
      refine ⟨0, by decide, ?_⟩
      rw [countdownDevice_scan] at h ⊢
      have hc : s.2 = 0 := hclear
      split
      · rename_i h0
        rw [if_pos h0] at h
        exact absurd hc h
      · rename_i h0
        show s.1 - 1 < s.1
        omega)
    (by
      intro s i
      rw [countdownDevice_analysis])
    (by
      intro s
      rw [countdownDevice_analysis]
      rfl)
    (3, 7)

/-- C8: `nhood` is never checked. For every value of `nhood`: (1) the driver behaves
exactly as for the connectivity `8` (when `nhood = 8`) or `4` (any other value), on every
device and state, so no value raises an error of its own; (2) every scanning kernel a
returning run has launched is the same one, the 8-connectivity kernel if `nhood = 8` and
the 4-connectivity kernel otherwise; (3) a returning run has launched that scanning kernel;
(4) whenever the launch patterns are computed and the first zero flag is read in iteration
`j + 1`, the run returns and its kernels are the initialisation, `j + 1` times that
scanning kernel followed by the analysis kernel, the three scan kernels and the
finaliser. -/
theorem nhood_is_not_validated (nhood nx ny fuel : Nat) :
    (∀ (σ : Type) (dev : Device σ) (s : σ),
      bwlabel_cuda dev fuel nhood nx ny s =
        bwlabel_cuda dev fuel (if nhood = 8 then 8 else 4) nx ny s) ∧
    (∀ (flags : Nat → Nat) (d : Nat) (s' : TraceState),
      bwlabel_cuda (traceDevice flags) fuel nhood nx ny
        { launches := [], scans := 0, d_modified := d } = Except.ok s' →
      ∀ l, l ∈ s'.launches → l.kernel.isScanning = true →
        l.kernel = if nhood = 8 then Kernel.ScanningTrueKernel
          else Kernel.ScanningFalseKernel) ∧
    (∀ (flags : Nat → Nat) (d : Nat) (s' : TraceState),
      bwlabel_cuda (traceDevice flags) fuel nhood nx ny
        { launches := [], scans := 0, d_modified := d } = Except.ok s' →
      ∃ p, launchPatterns nx ny = some p ∧
        scanningLaunch (nhood == 8) p nx ny ∈ s'.launches ∧
        (scanningLaunch (nhood == 8) p nx ny).kernel =
          if nhood = 8 then Kernel.ScanningTrueKernel else Kernel.ScanningFalseKernel) ∧
    (∀ (flags : Nat → Nat) (j d : Nat) (p : LaunchPatterns),
      (∀ i, i < j → flags i ≠ 0) → flags j = 0 → j < fuel → launchPatterns nx ny = some p →
      ∃ s', bwlabel_cuda (traceDevice flags) fuel nhood nx ny
          { launches := [], scans := 0, d_modified := d } = Except.ok s' ∧
        s'.launches.map (fun l => l.kernel) =
          Kernel.InitializeKernel ::
            ((List.replicate (j + 1)
                [if nhood = 8 then Kernel.ScanningTrueKernel else Kernel.ScanningFalseKernel,
                 Kernel.AnalysisKernel]).flatten ++
              [Kernel.PartialSumTrueKernel, Kernel.PartialSumFalseKernel,
               Kernel.FullSumKernel, Kernel.FinalizeKernel])) := by
  refine ⟨?_, ?_, ?_, ?_⟩
  · intro σ dev s
    by_cases h : nhood = 8
    · rw [if_pos h, h]
    · rw [if_neg h]
      show bwlabelLaunches dev fuel nhood nx ny s (launchPatterns nx ny) =
        bwlabelLaunches dev fuel 4 nx ny s (launchPatterns nx ny)
      generalize launchPatterns nx ny = o
      cases o with
      | none => rfl
      | some p =>
        have h8 : (nhood == 8) = false := by simpa using h
        simp only [bwlabelLaunches, h8]
        rfl
  · intro flags d s' hrun l hl hscan
    generalize hpo : launchPatterns nx ny = o at hrun
    cases o with
    | none =>
      rw [bwlabel_cuda_of_no_patterns _ _ _ _ _ _ hpo] at hrun
      cases hrun
    | some p =>
      rw [bwlabel_cuda_of_patterns _ _ _ _ _ _ p hpo,
        traceDevice_launch_other _ _ _ (by rfl)] at hrun
      cases hloop : fixpointLoop (traceDevice flags) (nhood == 8) p nx ny fuel
          { launches := [] ++ [initializeLaunch p], scans := 0, d_modified := d } with
      | error e => rw [hloop] at hrun; cases hrun
      | ok s1 =>
        rw [hloop] at hrun
        have hrun' : compactAndFinalize (traceDevice flags) p s1 = Except.ok s' := hrun
        rw [compactAndFinalize_eq, traceDevice_launch_other _ _ _ (by rfl),
          traceDevice_launch_other _ _ _ (by rfl), traceDevice_launch_other _ _ _ (by rfl),
          traceDevice_launch_other _ _ _ (by rfl)] at hrun'
        cases hrun'
        have hmem := fixpointLoop_trace_launches flags (nhood == 8) p nx ny fuel _ s1 hloop l
        simp only [List.mem_append, List.mem_singleton] at hl
        rcases hl with (((hl | hl) | hl) | hl) | hl
        · rcases hmem hl with h1 | h1 | h1
          · simp only [List.nil_append, List.mem_singleton] at h1
            rw [h1] at hscan; cases hscan
          · rw [h1, scanningLaunch_kernel]
            by_cases h : nhood = 8 <;> simp [h]
          · rw [h1] at hscan; cases hscan
        · rw [hl] at hscan; cases hscan
        · rw [hl] at hscan; cases hscan
        · rw [hl] at hscan; cases hscan
        · rw [hl] at hscan; cases hscan
  · intro flags d s' hrun
    generalize hpo : launchPatterns nx ny = o at hrun
    cases o with
    | none =>
      rw [bwlabel_cuda_of_no_patterns _ _ _ _ _ _ hpo] at hrun
      cases hrun
    | some p =>
      refine ⟨p, rfl, ?_, ?_⟩
      · rw [bwlabel_cuda_of_patterns _ _ _ _ _ _ p hpo,
          traceDevice_launch_other _ _ _ (by rfl)] at hrun
        cases hloop : fixpointLoop (traceDevice flags) (nhood == 8) p nx ny fuel
            { launches := [] ++ [initializeLaunch p], scans := 0, d_modified := d } with
        | error e => rw [hloop] at hrun; cases hrun
        | ok s1 =>
          rw [hloop] at hrun
          have hrun' : compactAndFinalize (traceDevice flags) p s1 = Except.ok s' := hrun
          rw [compactAndFinalize_eq, traceDevice_launch_other _ _ _ (by rfl),
            traceDevice_launch_other _ _ _ (by rfl), traceDevice_launch_other _ _ _ (by rfl),
            traceDevice_launch_other _ _ _ (by rfl)] at hrun'
          cases hrun'
          have hmem := fixpointLoop_trace_scans flags (nhood == 8) p nx ny fuel _ s1 hloop
            (scanningLaunch (nhood == 8) p nx ny) (Or.inr rfl)
          simp only [List.mem_append, List.mem_singleton]
          tauto
      · rw [scanningLaunch_kernel]
        by_cases h : nhood = 8 <;> simp [h]
  · intro flags j d p hnz hz hfuel hp
    refine ⟨_, bwlabel_cuda_trace flags j hnz hz fuel hfuel nhood nx ny d p hp, ?_⟩
    simp only [List.nil_append, List.map_append, List.map_cons, List.map_nil, List.append_assoc,
      List.singleton_append, List.cons_append, loopLaunches_kernels]
    by_cases h : nhood = 8
    · subst h; rfl
    · have h8 : (nhood == 8) = false := by simpa using h
      rw [h8, if_neg h]
      rfl

theorem nhood_is_not_validated_witness :
    bwlabel_cuda countdownDevice 5 3 5 7 (3, 0) =
        bwlabel_cuda countdownDevice 5 (if 3 = 8 then 8 else 4) 5 7 (3, 0) ∧
    (∃ s', bwlabel_cuda (traceDevice (fun _ => 0)) 5 3 5 7
        { launches := [], scans := 0, d_modified := 0 } = Except.ok s' ∧
      (∀ l, l ∈ s'.launches → l.kernel.isScanning = true →
        l.kernel = if 3 = 8 then Kernel.ScanningTrueKernel else Kernel.ScanningFalseKernel) ∧
      ∃ p, launchPatterns 5 7 = some p ∧
        scanningLaunch (3 == 8) p 5 7 ∈ s'.launches ∧
        (scanningLaunch (3 == 8) p 5 7).kernel =
          if 3 = 8 then Kernel.ScanningTrueKernel else Kernel.ScanningFalseKernel) ∧
    (∃ s', bwlabel_cuda (traceDevice (fun k => if k < 2 then 1 else 0)) 5 3 5 7
          { launches := [], scans := 0, d_modified := 0 } = Except.ok s' ∧
        s'.launches.map (fun l => l.kernel) =
          Kernel.InitializeKernel ::
            ((List.replicate (2 + 1)
                [if 3 = 8 then Kernel.ScanningTrueKernel else Kernel.ScanningFalseKernel,
                 Kernel.AnalysisKernel]).flatten ++
              [Kernel.PartialSumTrueKernel, Kernel.PartialSumFalseKernel,
               Kernel.FullSumKernel, Kernel.FinalizeKernel])) :=
  ⟨(nhood_is_not_validated 3 5 7 5).1 _ countdownDevice (3, 0),
    ⟨_, bwlabel_cuda_trace (fun _ => 0) 0 (by intro i hi; omega) rfl 5 (by decide) 3 5 7 0 _
        (launchPatterns_eq 5 7 (by decide) (by decide)),
      (nhood_is_not_validated 3 5 7 5).2.1 (fun _ => 0) 0 _
        (bwlabel_cuda_trace (fun _ => 0) 0 (by intro i hi; omega) rfl 5 (by decide) 3 5 7 0 _
          (launchPatterns_eq 5 7 (by decide) (by decide))),
      (nhood_is_not_validated 3 5 7 5).2.2.1 (fun _ => 0) 0 _
        (bwlabel_cuda_trace (fun _ => 0) 0 (by intro i hi; omega) rfl 5 (by decide) 3 5 7 0 _
          (launchPatterns_eq 5 7 (by decide) (by decide)))⟩,
    (nhood_is_not_validated 3 5 7 5).2.2.2 (fun k => if k < 2 then 1 else 0) 2 0 _
      (by intro i hi; simp [hi]) (by simp) (by decide)
      (launchPatterns_eq 5 7 (by decide) (by decide))⟩

/-! ## The modelled kernels -/

end BwlabelCuda

namespace ImreconstructCuda

/-! ## Initialisation of the process-tile flags -/

theorem cudaMemset_readUint32 (mem : Bytes) (value count i : Nat) (hi : 4 * i + 3 < count) :
    readUint32 (cudaMemset mem value count) i =
      (value % 256) * 16843009 := by
  unfold readUint32 cudaMemset
  rw [if_pos (by omega), if_pos (by omega), if_pos (by omega), if_pos hi]
  omega

/-- C11 (what the code does): for one tile (`nX = nY = 1`) and every element type `T`,
the single `uint32_T` flag holds `0x01010101 = 16843009` after the initialising
`cudaMemset`, not the documented value `1`: the call sets every byte to `1`. -/
theorem processTileFlag_after_memset_one_tile (T : ElemType) :
    numTiles T 1 1 = 1 ∧
      readUint32 (initProcessTileFlag T 1 1 (fun _ => 0)) 0 = 16843009 ∧
      readUint32 (initProcessTileFlag T 1 1 (fun _ => 0)) 0 ≠ 1 := by
  cases T <;> decide

end ImreconstructCuda

namespace ApproxCanny

/-! ## Non-maximum suppression -/

end ApproxCanny
